import Mathlib

/-!
Verification of the usage aggregation and visualization engine of
`history-analyzer.py` (a fish-shell history analyzer), via a shallow
embedding in Lean.

Modelling conventions, used throughout:

* A Python `datetime` is a single integer `t : ℤ` counting seconds since
  1970-01-01 00:00 (the program only compares datetimes, truncates them to
  dates, and extracts hour/weekday/year/month, and every datetime it builds
  has a whole number of seconds, so this is faithful; `datetime` comparison
  is the order on ℤ).  `datetime.fromtimestamp` is the identity on the
  epoch value (time zone offsets are irrelevant to every property below).
* Calendar arithmetic (`.date()`, `.weekday()`, `datetime(y, m, d)`,
  `.year`, `.month`, `timedelta` addition) is the proleptic Gregorian
  calendar of Python's `datetime` module, embedded with the standard
  civil-from-days / days-from-civil algorithms over ℤ.
* A Python `Counter` that is only ever incremented (as in this program) is
  a `Multiset` of its keys; `counter[k]` is `Multiset.count`, and iterating
  `.values()` and summing is summing `count` over `toFinset`.
* Python exceptions (IndexError on `lines[i+1]` and `argument[0]`,
  ValueError on `int(...)` and on negative f-string field widths) are
  `Except` error results; an uncaught exception aborts the run, so a
  method that raises after partially mutating its object is modelled as
  returning `error` (the corrupted state is never observable, since no
  caller of this program catches these exceptions).
* The float expressions of the two bar printers (`width * 0.7 - 3`,
  `commands / most_frequent`, `cols * freq`) are IEEE-754 binary64
  arithmetic, and are embedded exactly as such (the `F` type below): every
  value is an exact dyadic rational and every operation rounds to 53
  significant bits, ties to even.  `round` is Python's round-half-to-even
  on the exact value of the resulting double; `math.floor` is its exact
  floor.  (`/` on ℤ below is Euclidean division, hence floor division for
  the positive divisors used here.)  The one remaining float expression,
  the calendar's color `strength`, is modelled as an exact rational; no
  claim concerns its last bit.
-/

/-! ## Calendar arithmetic (the semantics of Python's `datetime`) -/

/-- Day number of the civil date `y-m-d` relative to 1970-01-01 (day 0),
for years `y ≥ 1`, in the proleptic Gregorian calendar (the calendar of
Python's `datetime`).  Standard days-from-civil algorithm. -/
def days_from_civil (y m d : ℕ) : ℤ :=
  let yy := if m ≤ 2 then y - 1 else y
  let era := yy / 400
  let yoe := yy % 400
  let mp := (m + 9) % 12
  let doy := (153 * mp + 2) / 5 + (d - 1)
  let doe := yoe * 365 + yoe / 4 - yoe / 100 + doy
  (era : ℤ) * 146097 + (doe : ℤ) - 719468

/-- Inverse of `days_from_civil`: the `(year, month, day)` of a day number.
Standard civil-from-days algorithm; all divisions are floor divisions. -/
def civil_from_days (z0 : ℤ) : ℤ × ℤ × ℤ :=
  let z := z0 + 719468
  let era := z / 146097
  let doe := z - era * 146097
  let yoe := (doe - doe / 1460 + doe / 36524 - doe / 146096) / 365
  let y := yoe + era * 400
  let doy := doe - (365 * yoe + yoe / 4 - yoe / 100)
  let mp := (5 * doy + 2) / 153
  let d := doy - (153 * mp + 2) / 5 + 1
  let m := mp + (if mp < 10 then 3 else -9)
  (y + (if m ≤ 2 then 1 else 0), m, d)

/-- The datetime `datetime(y, m, d)` (midnight), in seconds. -/
def mk_datetime (y m d : ℕ) : ℤ := days_from_civil y m d * 86400

/-- Semantics of `datetime.date()`: the day number of the datetime.  Dates
are identified with their day numbers. -/
def date_of (t : ℤ) : ℤ := t / 86400

/-- Semantics of Python's `datetime.weekday()`: 0 = Monday … 6 = Sunday.
1970-01-01 (day 0) was a Thursday, hence weekday 3. -/
def py_weekday (t : ℤ) : ℕ := ((t / 86400 + 3) % 7).toNat

/-- Semantics of `datetime.hour`. -/
def hour_of (t : ℤ) : ℕ := ((t % 86400) / 3600).toNat

/-- Semantics of `datetime.year`. -/
def year_of (t : ℤ) : ℤ := (civil_from_days (t / 86400)).1

/-- Semantics of `datetime.month`. -/
def month_of (t : ℤ) : ℤ := (civil_from_days (t / 86400)).2.1

/-- Modelled from the spec: the spec's weekday convention "0 = Sunday …
6 = Saturday" (§4.4 step 2), stated as a day-number function for
comparison with the code's `py_weekday`.  1970-01-01 was a Thursday,
which is 4 under a Sunday-first convention. -/
def spec_sunday_weekday (t : ℤ) : ℕ := ((t / 86400 + 4) % 7).toNat

/-! ## Decidable equality for `Except` (needed to evaluate embedded
exception-raising code on concrete inputs) -/

instance {ε α : Type} [DecidableEq ε] [DecidableEq α] : DecidableEq (Except ε α) := fun a b =>
  match a, b with
  | .ok x, .ok y =>
    if h : x = y then .isTrue (by rw [h]) else .isFalse (by intro hc; cases hc; exact h rfl)
  | .error x, .error y =>
    if h : x = y then .isTrue (by rw [h]) else .isFalse (by intro hc; cases hc; exact h rfl)
  | .ok _, .error _ => .isFalse (by intro hc; cases hc)
  | .error _, .ok _ => .isFalse (by intro hc; cases hc)

/-! ## The `Command` usage record -/

/-- The per-command Usage Record (`class Command`).  `uses` is the ordered
list of `(timestamp, argument_list)` pairs; the three time buckets and
`flags` are Counters, modelled as multisets of keys. -/
structure Command where
  name : String
  count : ℕ
  uses : List (ℤ × List String)
  most_recent_use : Option ℤ
  calendar_usage : Multiset ℤ
  weekly_usage : Multiset ℕ
  hourly_usage : Multiset ℕ
  flags : Multiset String
deriving DecidableEq

/-- `Command.__init__(name)`: the freshly created, empty record. -/
def mkCommand (name : String) : Command :=
  { name := name, count := 0, uses := [], most_recent_use := none,
    calendar_usage := 0, weekly_usage := 0, hourly_usage := 0, flags := 0 }

/-- `Command._get_flags`: for each argument token, read its first character
(`argument[0]` — an IndexError, hence `.error`, if the token is empty) and
count the token when it starts with `-` and has length > 1. -/
def get_flags : List String → Except Unit (Multiset String)
  | [] => .ok 0
  | argument :: rest =>
    match argument.data with
    | [] => .error ()
    | c :: _ =>
      match get_flags rest with
      | .error e => .error e
      | .ok f => .ok (if c = '-' ∧ 1 < argument.length then argument ::ₘ f else f)

/-- `Command.add_use(time, arguments)`: increment `count`, append the use,
increment the date/weekday/hour buckets, merge the extracted flags, and
raise `most_recent_use` to `time` when it is `None` or smaller. -/
def add_use (self : Command) (time : ℤ) (arguments : List String) : Except Unit Command :=
  match get_flags arguments with
  | .error e => .error e
  | .ok fl => .ok
    { self with
      count := self.count + 1
      uses := self.uses ++ [(time, arguments)]
      calendar_usage := date_of time ::ₘ self.calendar_usage
      weekly_usage := py_weekday time ::ₘ self.weekly_usage
      hourly_usage := hour_of time ::ₘ self.hourly_usage
      flags := self.flags + fl
      most_recent_use :=
        match self.most_recent_use with
        | none => some time
        | some m => if m < time then some time else some m }

/-- A sequence of `add_use` calls, left to right. -/
def add_uses : Command → List (ℤ × List String) → Except Unit Command
  | c, [] => .ok c
  | c, u :: rest =>
    match add_use c u.1 u.2 with
    | .error e => .error e
    | .ok c' => add_uses c' rest

/-- The body of the loop in `Command.get_uses_from_date`: add every use
whose timestamp lies in `[dt, stop]` to the accumulating record. -/
def range_loop (dt stop : ℤ) : Command → List (ℤ × List String) → Except Unit Command
  | acc, [] => .ok acc
  | acc, u :: rest =>
    if dt ≤ u.1 ∧ u.1 ≤ stop then
      match add_use acc u.1 u.2 with
      | .error e => .error e
      | .ok acc' => range_loop dt stop acc' rest
    else range_loop dt stop acc rest

/-- `Command.get_uses_from_date(date, stop_date)` (the range filter), in
state-passing form: the result is `(self after the call, new_cmd)`.  (The
Python default `stop_date = None` means `datetime.now()`; the embedding
takes the bound explicitly.)  The
method reads but never assigns `self`, so the first component is `self`
itself; the new record is rebuilt by `add_use` from the uses in range, and
its `most_recent_use` is then overwritten with the source's. -/
def get_uses_from_date (self : Command) (date stop_date : ℤ) :
    Except Unit (Command × Command) :=
  match range_loop date stop_date (mkCommand self.name) self.uses with
  | .error e => .error e
  | .ok new_cmd => .ok (self, { new_cmd with most_recent_use := self.most_recent_use })

/-- Stable insertion of a use into a list sorted ascending by timestamp:
the new element goes before the first strictly larger timestamp. -/
def sort_insert (x : ℤ × List String) : List (ℤ × List String) → List (ℤ × List String)
  | [] => [x]
  | y :: ys => if y.1 < x.1 then y :: sort_insert x ys else x :: y :: ys

/-- `Command._sort_uses`: Python's stable `list.sort(key = timestamp)`,
modelled as a stable insertion sort (a stable sort's output — ascending by
timestamp with ties in original order — is unique, so any stable sort is
a faithful model). -/
def sort_uses : List (ℤ × List String) → List (ℤ × List String)
  | [] => []
  | x :: xs => sort_insert x (sort_uses xs)

/-- Semantics of the Python slice `lst[-n:]` for `n : ℕ`: the last `n`
elements — except that `lst[-0:]` is `lst[0:]`, the whole list. -/
def neg_slice {α : Type} (l : List α) (n : ℕ) : List α :=
  if n = 0 then l else l.drop (l.length - n)

/-- `Command.get_last_n_uses(n_uses)`, in state-passing form: sort `self`'s
uses in place (the observable mutation of the source), rebuild a new record
from the slice `uses[-n_uses:]`, and overwrite its `most_recent_use` with
the source's. -/
def get_last_n_uses (self : Command) (n_uses : ℕ) : Except Unit (Command × Command) :=
  let sorted := sort_uses self.uses
  let self' := { self with uses := sorted }
  match add_uses (mkCommand self.name) (neg_slice sorted n_uses) with
  | .error e => .error e
  | .ok new_cmd => .ok (self', { new_cmd with most_recent_use := self.most_recent_use })

/-! ## The history parser (`parse_commands`) -/

/-- Python exceptions that `parse_commands` can raise: IndexError (from
`lines[line_num + 1]`, `full_cmd[0]` or `argument[0]`) and ValueError
(from `int(...)`). -/
inductive PyErr where
  | indexError : PyErr
  | valueError : PyErr
deriving DecidableEq

/-- Digit run of Python's `int()`: accumulate decimal digits, failing on
any non-digit character. -/
def py_digits_aux : List Char → ℕ → Except Unit ℕ
  | [], acc => .ok acc
  | c :: rest, acc =>
    if '0' ≤ c ∧ c ≤ '9' then py_digits_aux rest (acc * 10 + (c.toNat - '0'.toNat))
    else .error ()

/-- Semantics of Python's `int(s)` on a character list: strip surrounding
whitespace, allow one optional sign, then require a non-empty digit run;
anything else raises ValueError (`.error`). -/
def py_int (s : List Char) : Except Unit ℤ :=
  let t := ((s.dropWhile Char.isWhitespace).reverse.dropWhile Char.isWhitespace).reverse
  match t with
  | [] => .error ()
  | '-' :: ds =>
    match ds with
    | [] => .error ()
    | _ => (py_digits_aux ds 0).map (fun n => -(n : ℤ))
  | '+' :: ds =>
    match ds with
    | [] => .error ()
    | _ => (py_digits_aux ds 0).map (fun n => (n : ℤ))
  | ds => (py_digits_aux ds 0).map (fun n => (n : ℤ))

/-- Helper for `py_split`: scan characters, collecting the current word in
reverse in `acc`. -/
def py_split_aux : List Char → List Char → List String
  | [], acc => if acc.isEmpty then [] else [String.mk acc.reverse]
  | c :: rest, acc =>
    if c.isWhitespace then
      if acc.isEmpty then py_split_aux rest []
      else String.mk acc.reverse :: py_split_aux rest []
    else py_split_aux rest (c :: acc)

/-- Semantics of Python's `str.split()` with no separator: split on runs of
whitespace, discarding empty words. -/
def py_split (s : String) : List String := py_split_aux s.data []

/-- `commands.setdefault(cmd, Command(cmd)); commands[cmd].add_use(...)`:
the insertion-ordered dict of records, updated at `name` (appending a
fresh record on first sight). -/
def dict_add_use : List (String × Command) → String → ℤ → List String →
    Except Unit (List (String × Command))
  | [], name, t, args =>
    match add_use (mkCommand name) t args with
    | .error e => .error e
    | .ok c => .ok [(name, c)]
  | (k, c) :: rest, name, t, args =>
    if k = name then
      match add_use c t args with
      | .error e => .error e
      | .ok c' => .ok ((k, c') :: rest)
    else
      match dict_add_use rest name t args with
      | .error e => .error e
      | .ok rest' => .ok ((k, c) :: rest')

/-- The loop of `parse_commands`.  Scanning position `i` is represented by
the suffix of `lines` starting at `i`, so `lines[line_num + 1]` is the head
of `rest`.  On a `- cmd: ` line the code first evaluates
`int(lines[line_num + 1][6:])` (IndexError past the end, ValueError on a
non-numeric payload), then `full_cmd[0]` (IndexError on an empty command
payload), then adds the use; nothing is caught, so any of these aborts the
whole parse. -/
def parse_lines (cs : List (String × Command)) : List String → Except PyErr (List (String × Command))
  | [] => .ok cs
  | line :: rest =>
    if "- cmd: ".data.isPrefixOf line.data then
      match rest with
      | [] => .error .indexError
      | nxt :: _ =>
        match py_int (nxt.data.drop 6) with
        | .error _ => .error .valueError
        | .ok epoch =>
          match py_split (String.mk (line.data.drop 7)) with
          | [] => .error .indexError
          | cmd :: arguments =>
            match dict_add_use cs cmd epoch arguments with
            | .error _ => .error .indexError
            | .ok cs' => parse_lines cs' rest
    else parse_lines cs rest

/-- `parse_commands(lines)`: fold the two-line entries of the history log
into the mapping of command name → Usage Record. -/
def parse_commands (lines : List String) : Except PyErr (List (String × Command)) :=
  parse_lines [] lines

/-! ## The bucket reporters and the calendar renderer -/

/-- `counter.most_common(1)[0][1]`: the peak count of a Counter — an
IndexError (`.error`) when the Counter is empty, otherwise the maximum
count over its keys. -/
def counter_peak {K : Type} [DecidableEq K] (m : Multiset K) : Except Unit ℕ :=
  if m = 0 then .error () else .ok (m.toFinset.sup (fun k => m.count k))

/-! ### IEEE-754 binary64 arithmetic

The bar arithmetic of the two printers is Python float (binary64)
arithmetic, which deviates from exact real arithmetic on realistic
inputs (for example `round(175 * 0.7 - 3)` is 119, not the exact 120,
because `175 * 0.7 = 122.49999999999999` as a double).  It is embedded
exactly: a finite double is an exact dyadic rational `m * 2 ^ e`, and
every operation rounds its exact result to 53 significant bits with
round-to-nearest, ties-to-even, as the hardware does.  Exponent overflow
(doubles above ~1.8e308) is not modelled; it is unreachable for any
representable terminal size. -/

/-- Fuel-driven floor of `log2` (fuel `n` always suffices), structural so
that it evaluates inside the kernel. -/
def log2_aux : ℕ → ℕ → ℕ
  | 0, _ => 0
  | fuel + 1, n => if n ≤ 1 then 0 else log2_aux fuel (n / 2) + 1

def nat_log2 (n : ℕ) : ℕ := log2_aux n n

/-- A finite IEEE-754 binary64 value, as the exact dyadic rational
`m * 2 ^ e` (`m = 0`, or `|m|` a 53-bit integer significand). -/
structure F where
  m : ℤ
  e : ℤ
deriving DecidableEq

/-- Round the exact rational `num / den` (`den > 0`) to the nearest
binary64 value, ties to even: find the binade `2 ^ e ≤ |num / den| <
2 ^ (e + 1)`, scale the fraction to `[2 ^ 52, 2 ^ 53)`, and round the
quotient half-to-even.  This is the correctly rounded double required of
every IEEE operation. -/
def flQ (num : ℤ) (den : ℕ) : F :=
  if num = 0 then ⟨0, 0⟩
  else
    let a := num.natAbs
    let e0 : ℤ := (nat_log2 a : ℤ) - (nat_log2 den : ℤ)
    let ge : Bool :=
      if 0 ≤ e0 then decide (den * 2 ^ e0.toNat ≤ a) else decide (den ≤ a * 2 ^ (-e0).toNat)
    let e : ℤ := if ge then e0 else e0 - 1
    let s : ℤ := 52 - e
    let A : ℕ := if 0 ≤ s then a * 2 ^ s.toNat else a
    let B : ℕ := if 0 ≤ s then den else den * 2 ^ (-s).toNat
    let q := A / B
    let r := A % B
    let mm : ℕ :=
      if 2 * r < B then q else if B < 2 * r then q + 1 else if q % 2 = 0 then q else q + 1
    ⟨if num < 0 then -(mm : ℤ) else (mm : ℤ), e - 52⟩

/-- Round the exact dyadic value `n * 2 ^ e` to a binary64 value. -/
def flDyadic (n : ℤ) (e : ℤ) : F :=
  if 0 ≤ e then flQ (n * 2 ^ e.toNat) 1 else flQ n (2 ^ (-e).toNat)

/-- Python int → float conversion (correctly rounded; exact below `2^53`). -/
def intToF (n : ℤ) : F := flQ n 1

/-- IEEE double multiplication: round the exact product. -/
def fmul (x y : F) : F := flDyadic (x.m * y.m) (x.e + y.e)

/-- IEEE double subtraction: round the exact difference. -/
def fsub (x y : F) : F :=
  let e := min x.e y.e
  flDyadic (x.m * 2 ^ (x.e - e).toNat - y.m * 2 ^ (y.e - e).toNat) e

/-- Python `int / int` true division: the correctly rounded double of the
exact quotient. -/
def fdiv_nat (c p : ℕ) : F := flQ (c : ℤ) p

/-- `math.floor` of a double: the exact floor of its value (`/` on ℤ is
floor division for the positive divisor). -/
def ffloor (x : F) : ℤ :=
  if 0 ≤ x.e then x.m * 2 ^ x.e.toNat else x.m / (2 ^ (-x.e).toNat : ℤ)

/-- Python `round` of a double: nearest integer to its exact value, ties
to even. -/
def fround (x : F) : ℤ :=
  if 0 ≤ x.e then x.m * 2 ^ x.e.toNat
  else
    let d : ℤ := 2 ^ (-x.e).toNat
    let q := x.m / d
    let r := x.m % d
    if 2 * r < d then q else if d < 2 * r then q + 1 else if q % 2 = 0 then q else q + 1

/-- The double literal `0.7`: the binary64 value nearest to 7/10
(`6305039478318694 * 2 ^ (-53) = 0.6999999999999999555910790149937...`). -/
def float07 : F := flQ 7 10

/-- `cols = round((width * 0.7) - 3)` from the two bar-chart printers, in
binary64 arithmetic: convert `width` to a double, multiply by the double
`0.7` (rounding), subtract 3 (rounding), and `round` the exact value of
the result half-to-even. -/
def bar_cols (width : ℕ) : ℤ := fround (fsub (fmul (intToF (width : ℤ)) float07) (intToF 3))

/-- Round half to even on the exact rational `a / 10` — the idealized
real-number reading of the bar-width rounding, for comparison with the
float-valued `bar_cols` (they differ, e.g. at width 175). -/
def py_round_tenths (a : ℤ) : ℤ :=
  let q := a / 10
  let r := a % 10
  if r < 5 then q else if 5 < r then q + 1 else if q % 2 = 0 then q else q + 1

/-- Modelled from the spec: the spec's bar-field width formula
"`available_width = round(terminal_columns * 0.7) - 3`, clamped to zero
minimum" (§4.3), read as exact arithmetic, for comparison with the code's
`bar_cols`. -/
def spec_available_width (width : ℕ) : ℤ := max (py_round_tenths (7 * (width : ℤ)) - 3) 0

/-- `math.floor(cols * freq)` with `freq = commands / most_frequent`, as a
bar length in character cells, in binary64 arithmetic: divide the counts
(rounding), convert `cols` to a double (exact, `|cols|` is small),
multiply (rounding), and take the exact floor; a negative product floors
to an empty bar (`'■' * negative` is the empty string). -/
def bar_len (cols : ℤ) (commands peak : ℕ) : ℕ :=
  (ffloor (fmul (intToF cols) (fdiv_nat commands peak))).toNat

/-- `print_week_usage(weekly_usage)`: one row per weekday 0–6, labelled
`S M T W T F S`, as `(label, bar length, count)`.  The peak raises on an
empty Counter; a negative `cols` makes the f-string field width
`{bar:<{cols}}` raise ValueError (`.error`).  Terminal width is the
external terminal-size collaborator's `columns`, passed explicitly. -/
def print_week_usage (weekly_usage : Multiset ℕ) (width : ℕ) :
    Except Unit (List (Char × ℕ × ℕ)) :=
  match counter_peak weekly_usage with
  | .error e => .error e
  | .ok most_frequent =>
    (List.range 7).mapM (fun day =>
      let commands := weekly_usage.count day
      let cols := bar_cols width
      if cols < 0 then .error ()
      else .ok ((['S', 'M', 'T', 'W', 'T', 'F', 'S'].get? day).getD ' ',
                bar_len cols commands most_frequent, commands))

/-- The hour labels of `print_time_usage`. -/
def hour_labels : List String :=
  ["12AM", "1AM", "2AM", "3AM", "4AM", "5AM", "6AM", "7AM", "8AM", "9AM", "10AM", "11AM",
   "12PM", "1PM", "2PM", "3PM", "4PM", "5PM", "6PM", "7PM", "8PM", "9PM", "10PM", "11PM"]

/-- `print_time_usage(hourly_usage)`: one row per hour 0–23, same bar
arithmetic and failure modes as `print_week_usage`. -/
def print_time_usage (hourly_usage : Multiset ℕ) (width : ℕ) :
    Except Unit (List (String × ℕ × ℕ)) :=
  match counter_peak hourly_usage with
  | .error e => .error e
  | .ok most_frequent =>
    (List.range 24).mapM (fun hour =>
      let commands := hourly_usage.count hour
      let cols := bar_cols width
      if cols < 0 then .error ()
      else .ok ((hour_labels.get? hour).getD "",
                bar_len cols commands most_frequent, commands))

/-- `color_strength(string, strength)` chooses palette index
`floor(clamp(strength, 0, 1) * 9)` from its 10 colors; with
`strength = count / peak ≥ 0` this is index 9 when `count ≥ peak` and
`floor(9 * count / peak)` otherwise (exact rational arithmetic). -/
def color_strength (commands peak : ℕ) : ℕ :=
  if peak ≤ commands then 9 else 9 * commands / peak

/-- `days = 366 if year % 4 == 0 else 365`: the simplified (Julian)
year-length rule of `print_calendar`. -/
def year_days (year : ℕ) : ℕ := if year % 4 = 0 then 366 else 365

/-- `offset = year_start.weekday()`: Python's Monday-first weekday index of
Jan 1. -/
def year_offset (year : ℕ) : ℕ := py_weekday (mk_datetime year 1 1)

/-- `columns = math.ceil((days + offset) / 7)` (exact rational ceiling,
computed over ℕ). -/
def calendar_columns (year : ℕ) : ℕ := (year_days year + year_offset year + 6) / 7

/-- The day number of the grid cell in weekday row `wd` and week column
`week`: `year_start + timedelta(days = weekday + 7 * week - offset)`. -/
def cell_day (year : ℕ) (wd week : ℕ) : ℤ :=
  days_from_civil year 1 1 + ((wd : ℤ) + 7 * (week : ℤ) - (year_offset year : ℤ))

/-- The month of a day number (`(year_start + timedelta).month`). -/
def month_of_day (z : ℤ) : ℤ := (civil_from_days z).2.1

/-- The single-letter month labels of `print_calendar`. -/
def months_list : List Char := ['J', 'F', 'M', 'A', 'M', 'J', 'J', 'A', 'S', 'O', 'N', 'D']

/-- The month-label header loop of `print_calendar`: walk the `k` remaining
week columns starting at column `week` carrying `month_index`; place the
next month letter whenever the month of the date 7 days past the end of
the column exceeds `month_index`.  (`months[month_index]` cannot go out of
range: the guard `month > month_index` is false once `month_index` reaches
12, so the lookup is total and modelled with a defaulted get.) -/
def header_loop (yr : ℕ) : ℕ → ℕ → ℤ → List Char
  | 0, _, _ => []
  | k + 1, week, month_index =>
    let last_row := days_from_civil yr 1 1 + (7 + 7 * (week : ℤ) - (year_offset yr : ℤ))
    if month_index < month_of_day last_row then
      (months_list.get? month_index.toNat).getD ' ' :: header_loop yr k (week + 1) (month_index + 1)
    else ' ' :: header_loop yr k (week + 1) month_index

/-- One weekday row of the calendar grid: a blank cell (`none`) when the
cell's date falls outside `[Jan 1, Dec 31]`, otherwise the palette index of
`calendar_usage[day.date()] / most_busy`. -/
def grid_row (yr : ℕ) (usage : Multiset ℤ) (busy : ℕ) (wd cols : ℕ) : List (Option ℕ) :=
  (List.range cols).map (fun week =>
    let day := cell_day yr wd week
    if day < days_from_civil yr 1 1 ∨ days_from_civil yr 12 31 < day then none
    else some (color_strength (usage.count day) busy))

/-- One rendered year of `print_calendar`: the year, the month-label header
row, the 7 weekday rows of the grid, and the footer
`len(calendar_usage.keys())`. -/
structure YearBlock where
  year : ℤ
  header : List Char
  grid : List (List (Option ℕ))
  footer : ℕ
deriving DecidableEq

/-- `print_calendar(calendar_usage, start_datetime, end_datetime)`: the
peak day count is taken once over the whole mapping (IndexError on an
empty mapping); then one block per year from `start.year` to `end.year`.
(Years of Python datetimes lie in 1..9999, so the ℕ coercion of the loop
year is exact.) -/
def print_calendar (calendar_usage : Multiset ℤ) (start_dt end_dt : ℤ) :
    Except Unit (List YearBlock) :=
  match counter_peak calendar_usage with
  | .error e => .error e
  | .ok most_busy =>
    let years := (year_of end_dt - year_of start_dt + 1).toNat
    .ok ((List.range years).map (fun y =>
      let yr := (year_of start_dt + (y : ℤ)).toNat
      let cols := calendar_columns yr
      { year := year_of start_dt + (y : ℤ)
        header := header_loop yr cols 0 0
        grid := (List.range 7).map (fun wd => grid_row yr calendar_usage most_busy wd cols)
        footer := calendar_usage.toFinset.card }))

/-- The first loop of `analyze_commands`: filter every record to the
reporting window and keep the non-empty results, keyed by the (unchanged)
record name, in dict insertion order. -/
def analyze_keep : List (String × Command) → ℤ → ℤ → Except Unit (List (String × Command))
  | [], _, _ => .ok []
  | (_, cmd) :: rest, s, e =>
    match get_uses_from_date cmd s e with
    | .error er => .error er
    | .ok pr =>
      match analyze_keep rest s e with
      | .error er => .error er
      | .ok rest' =>
        if 0 < pr.2.uses.length then .ok ((pr.2.name, pr.2) :: rest') else .ok rest'

/-- `analyze_commands(commands, start_datetime, end_datetime)`: filter to
the window, sum the three bucket Counters across the kept records, and run
the three reports in order (calendar, weekly, hourly).  No exception is
caught, so an empty aggregate mapping aborts the whole call at the first
report's peak computation.  Returns the kept records and the three
rendered reports. -/
def analyze_commands (commands : List (String × Command)) (start_dt end_dt : ℤ) (width : ℕ) :
    Except Unit (List (String × Command) × List YearBlock ×
      List (Char × ℕ × ℕ) × List (String × ℕ × ℕ)) :=
  match analyze_keep commands start_dt end_dt with
  | .error e => .error e
  | .ok kept =>
    let calendar_usage := (kept.map (fun p => p.2.calendar_usage)).sum
    let weekly_usage := (kept.map (fun p => p.2.weekly_usage)).sum
    let hourly_usage := (kept.map (fun p => p.2.hourly_usage)).sum
    match print_calendar calendar_usage start_dt end_dt with
    | .error e => .error e
    | .ok cal =>
      match print_week_usage weekly_usage width with
      | .error e => .error e
      | .ok wk =>
        match print_time_usage hourly_usage width with
        | .error e => .error e
        | .ok hr => .ok (kept, cal, wk, hr)

/-! ## Basic facts about `add_use` sequences -/

/-- Elimination form of a successful `add_use`: the exact record produced. -/
lemma add_use_eq_ok {c : Command} {t : ℤ} {a : List String} {c' : Command}
    (h : add_use c t a = .ok c') :
    ∃ fl, get_flags a = .ok fl ∧
      c' = { c with
        count := c.count + 1
        uses := c.uses ++ [(t, a)]
        calendar_usage := date_of t ::ₘ c.calendar_usage
        weekly_usage := py_weekday t ::ₘ c.weekly_usage
        hourly_usage := hour_of t ::ₘ c.hourly_usage
        flags := c.flags + fl
        most_recent_use :=
          match c.most_recent_use with
          | none => some t
          | some m => if m < t then some t else some m } := by
  cases hfl : get_flags a with
  | error e => rw [add_use, hfl] at h; cases h
  | ok fl =>
    rw [add_use, hfl] at h
    exact ⟨fl, rfl, (Except.ok.inj h).symm⟩

/-- A property preserved by every successful `add_use` step is preserved by
any successful `add_use` sequence. -/
lemma add_uses_preserve {P : Command → Prop}
    (hP : ∀ c t a c', add_use c t a = .ok c' → P c → P c') :
    ∀ (l : List (ℤ × List String)) (c c' : Command), add_uses c l = .ok c' → P c → P c' := by
  intro l
  induction l with
  | nil =>
    intro c c' h hc
    rw [add_uses] at h
    rwa [← Except.ok.inj h]
  | cons u rest ih =>
    intro c c' h hc
    rw [add_uses] at h
    cases hu : add_use c u.1 u.2 with
    | error e => rw [hu] at h; cases h
    | ok c1 => rw [hu] at h; exact ih c1 c' h (hP _ _ _ _ hu hc)

/-- The counting invariant of a Usage Record: `count` agrees with the
length of `uses` and with the size of each of the three time buckets. -/
def use_inv (c : Command) : Prop :=
  c.count = c.uses.length ∧ Multiset.card c.calendar_usage = c.count ∧
    Multiset.card c.weekly_usage = c.count ∧ Multiset.card c.hourly_usage = c.count

lemma add_use_use_inv {c : Command} {t : ℤ} {a : List String} {c' : Command}
    (h : add_use c t a = .ok c') (hc : use_inv c) : use_inv c' := by
  obtain ⟨fl, -, rfl⟩ := add_use_eq_ok h
  obtain ⟨h1, h2, h3, h4⟩ := hc
  refine ⟨?_, ?_, ?_, ?_⟩ <;>
    simp [h1, h2, h3, h4, List.length_append, Multiset.card_cons]

/-- The `most_recent_use` invariant of a record built purely by `add_use`:
absent exactly on an empty record, and otherwise the maximum timestamp of
its own `uses`. -/
def mru_inv (c : Command) : Prop :=
  (c.most_recent_use = none → c.uses = []) ∧
    ∀ m, c.most_recent_use = some m →
      m ∈ c.uses.map Prod.fst ∧ ∀ t ∈ c.uses.map Prod.fst, t ≤ m

/-- The `most_recent_use` update of `add_use`, on explicit components:
appending the use `(t, a)` and raising the maximum preserves the
maximum-of-own-uses property. -/
lemma mru_step (old : Option ℤ) (uses : List (ℤ × List String)) (t : ℤ) (a : List String)
    (h0 : old = none → uses = [])
    (hs : ∀ m, old = some m → m ∈ uses.map Prod.fst ∧ ∀ x ∈ uses.map Prod.fst, x ≤ m) :
    ((match old with | none => some t | some m => if m < t then some t else some m) = none →
      uses ++ [(t, a)] = []) ∧
    ∀ m, (match old with | none => some t | some m => if m < t then some t else some m) = some m →
      m ∈ (uses ++ [(t, a)]).map Prod.fst ∧ ∀ x ∈ (uses ++ [(t, a)]).map Prod.fst, x ≤ m := by
  cases old with
  | none =>
    have hu : uses = [] := h0 rfl
    constructor
    · intro hnone; simp at hnone
    · intro m hm
      obtain rfl : t = m := Option.some.inj (by simpa using hm)
      subst hu
      simp
  | some m0 =>
    obtain ⟨hmem, hbd⟩ := hs m0 rfl
    by_cases hlt : m0 < t
    · constructor
      · intro hnone; dsimp only at hnone; rw [if_pos hlt] at hnone; simp at hnone
      · intro m hm
        dsimp only at hm
        rw [if_pos hlt] at hm
        obtain rfl : t = m := Option.some.inj (by simpa using hm)
        refine ⟨by simp, ?_⟩
        intro x hx
        simp only [List.map_append, List.mem_append] at hx
        rcases hx with hx | hx
        · exact le_of_lt (lt_of_le_of_lt (hbd x hx) hlt)
        · simp at hx; omega
    · constructor
      · intro hnone; dsimp only at hnone; rw [if_neg hlt] at hnone; simp at hnone
      · intro m hm
        dsimp only at hm
        rw [if_neg hlt] at hm
        obtain rfl : m0 = m := Option.some.inj (by simpa using hm)
        refine ⟨by simp only [List.map_append, List.mem_append]; exact Or.inl hmem, ?_⟩
        intro x hx
        simp only [List.map_append, List.mem_append] at hx
        rcases hx with hx | hx
        · exact hbd x hx
        · simp at hx; omega

lemma add_use_mru_inv {c : Command} {t : ℤ} {a : List String} {c' : Command}
    (h : add_use c t a = .ok c') (hc : mru_inv c) : mru_inv c' := by
  obtain ⟨fl, -, rfl⟩ := add_use_eq_ok h
  exact mru_step c.most_recent_use c.uses t a hc.1 hc.2

/-- C1: for every Usage Record built by any sequence of `add_use` calls
from a freshly created record, `count` equals the length of `uses`, and
`count` equals the sum of the values of each of `calendar_usage`,
`weekly_usage` and `hourly_usage`. -/
theorem add_use_count_invariants :
    ∀ (name : String) (l : List (ℤ × List String)) (c : Command),
      add_uses (mkCommand name) l = .ok c →
      c.count = c.uses.length ∧
      (∑ k ∈ c.calendar_usage.toFinset, c.calendar_usage.count k) = c.count ∧
      (∑ k ∈ c.weekly_usage.toFinset, c.weekly_usage.count k) = c.count ∧
      (∑ k ∈ c.hourly_usage.toFinset, c.hourly_usage.count k) = c.count := by
  intro name l c h
  have hinv : use_inv c :=
    add_uses_preserve (fun _ _ _ _ => add_use_use_inv) l (mkCommand name) c h
      ⟨rfl, rfl, rfl, rfl⟩
  obtain ⟨h1, h2, h3, h4⟩ := hinv
  refine ⟨h1, ?_, ?_, ?_⟩ <;>
    simp only [Multiset.toFinset_sum_count_eq, h2, h3, h4]

/-- A concrete record built by one `add_use` (the spec's end-to-end
example input `- cmd: git status` at epoch 1700000000). -/
def c1ex : Command :=
  { name := "git", count := 1, uses := [(1700000000, ["status"])],
    most_recent_use := some 1700000000, calendar_usage := {19675},
    weekly_usage := {1}, hourly_usage := {22}, flags := 0 }

theorem add_use_count_invariants_witness :
    c1ex.count = c1ex.uses.length ∧
      (∑ k ∈ c1ex.calendar_usage.toFinset, c1ex.calendar_usage.count k) = c1ex.count :=
  ⟨(add_use_count_invariants "git" [(1700000000, ["status"])] c1ex (by decide)).1,
   (add_use_count_invariants "git" [(1700000000, ["status"])] c1ex (by decide)).2.1⟩

/-! ## Flag extraction and `add_use` totality (C10) -/

lemma get_flags_error_of_empty_mem :
    ∀ (args : List String), "" ∈ args → get_flags args = .error () := by
  intro args
  induction args with
  | nil => intro h; cases h
  | cons a rest ih =>
    intro h
    rcases List.mem_cons.mp h with rfl | hmem
    · rfl
    · rw [get_flags]
      cases hd : a.data with
      | nil => rfl
      | cons c cs => rw [ih hmem]

lemma get_flags_ok_of_nonempty :
    ∀ (args : List String), (∀ a ∈ args, a ≠ "") → ∃ f, get_flags args = .ok f := by
  intro args
  induction args with
  | nil => exact fun _ => ⟨0, rfl⟩
  | cons a rest ih =>
    intro h
    obtain ⟨f, hf⟩ := ih (fun x hx => h x (List.mem_cons_of_mem _ hx))
    have ha : a.data ≠ [] := by
      intro hd
      exact h a (List.mem_cons_self a rest) (String.ext (hd.trans rfl))
    cases hd : a.data with
    | nil => exact absurd hd ha
    | cons c cs =>
      rw [get_flags, hd, hf]
      exact ⟨_, rfl⟩

/-- C10: `add_use` raises (an IndexError inside `_get_flags`, from
`argument[0]`) exactly when some argument token is the empty string: with
an empty token it returns an error, and under the precondition that every
token is non-empty it always succeeds. -/
theorem add_use_empty_token_total :
    ∀ (c : Command) (t : ℤ) (args : List String),
      ("" ∈ args → add_use c t args = .error ()) ∧
      ((∀ a ∈ args, a ≠ "") → ∃ c', add_use c t args = .ok c') := by
  intro c t args
  constructor
  · intro h
    rw [add_use, get_flags_error_of_empty_mem args h]
  · intro h
    obtain ⟨f, hf⟩ := get_flags_ok_of_nonempty args h
    rw [add_use, hf]
    exact ⟨_, rfl⟩

theorem add_use_empty_token_total_witness :
    add_use (mkCommand "git") 0 [""] = .error () :=
  (add_use_empty_token_total (mkCommand "git") 0 [""]).1 (by decide)

/-! ## The weekday convention (C4) -/

/-- C4: the weekday indexing actually used by the code (`datetime.weekday()`
in `add_use` and in `print_calendar`'s `offset`) is Python's 0 = Monday …
6 = Sunday, not the claimed 0 = Sunday … 6 = Saturday of the
`S M T W T F S` row labels: Jan 1, 2024 (a Monday) gets offset 0 where the
Sunday-first convention of the labels requires 1, and a use on Sunday
Jan 7, 2024 is bucketed into weekly bucket 6, not 0. -/
theorem weekday_convention_is_monday_first :
    year_offset 2024 = 0 ∧ spec_sunday_weekday (mk_datetime 2024 1 1) = 1 ∧
    py_weekday (mk_datetime 2024 1 7) = 6 ∧ spec_sunday_weekday (mk_datetime 2024 1 7) = 0 ∧
    (add_use (mkCommand "git") (mk_datetime 2024 1 7) []).map Command.weekly_usage =
      .ok {6} ∧
    year_offset 2024 ≠ spec_sunday_weekday (mk_datetime 2024 1 1) := by decide

/-! ## The parser on malformed entries (C2) -/

/-- C2 (counterexample): an input consisting of one dangling `- cmd: ` line
with no following timestamp line makes `parse_commands` raise an
IndexError (from `lines[line_num + 1]`) instead of returning zero records
and a skipped-entry count. -/
theorem parse_dangling_cmd_raises :
    parse_commands ["- cmd: ls"] = .error .indexError := by decide

/-- C2 (amended): the parser raises on a malformed entry rather than
skipping it — a usage-marker line with no following line raises IndexError,
and a following line whose timestamp payload does not parse as an integer
raises ValueError; no count of skipped entries exists anywhere. -/
theorem parse_malformed_entry_raises :
    ∀ line : String, "- cmd: ".data.isPrefixOf line.data = true →
      parse_commands [line] = .error .indexError ∧
      ∀ nxt : String, py_int (nxt.data.drop 6) = .error () →
        parse_commands [line, nxt] = .error .valueError := by
  intro line h
  constructor
  · simp [parse_commands, parse_lines, h]
  · intro nxt hn
    simp [parse_commands, parse_lines, h, hn]

theorem parse_malformed_entry_raises_witness :
    parse_commands ["- cmd: echo hi"] = .error .indexError ∧
      parse_commands ["- cmd: echo hi", "when: oops"] = .error .valueError :=
  ⟨(parse_malformed_entry_raises "- cmd: echo hi" (by decide)).1,
   (parse_malformed_entry_raises "- cmd: echo hi" (by decide)).2 "when: oops" (by decide)⟩

/-! ## The derivation operations (C5, C6, C7) -/

/-- Elimination form of a successful `get_uses_from_date`. -/
lemma get_uses_from_date_eq_ok {c : Command} {d s : ℤ} {pr : Command × Command}
    (h : get_uses_from_date c d s = .ok pr) :
    ∃ nc, range_loop d s (mkCommand c.name) c.uses = .ok nc ∧
      pr = (c, { nc with most_recent_use := c.most_recent_use }) := by
  cases hr : range_loop d s (mkCommand c.name) c.uses with
  | error e => rw [get_uses_from_date, hr] at h; cases h
  | ok nc =>
    rw [get_uses_from_date, hr] at h
    exact ⟨nc, rfl, (Except.ok.inj h).symm⟩

/-- Elimination form of a successful `get_last_n_uses`. -/
lemma get_last_n_uses_eq_ok {c : Command} {n : ℕ} {pr : Command × Command}
    (h : get_last_n_uses c n = .ok pr) :
    ∃ nc, add_uses (mkCommand c.name) (neg_slice (sort_uses c.uses) n) = .ok nc ∧
      pr = ({ c with uses := sort_uses c.uses },
            { nc with most_recent_use := c.most_recent_use }) := by
  cases hr : add_uses (mkCommand c.name) (neg_slice (sort_uses c.uses) n) with
  | error e => simp only [get_last_n_uses] at h; rw [hr] at h; cases h
  | ok nc =>
    simp only [get_last_n_uses] at h
    rw [hr] at h
    exact ⟨nc, rfl, (Except.ok.inj h).symm⟩

/-- C6: `filter_by_range` leaves the source record unchanged — the state
component returned by the state-passing embedding of `get_uses_from_date`
is the source itself, so its `count`, `uses` and all three buckets (and
`flags`) are identical before and after the call.  (In this value-level
embedding the returned record is rebuilt from scratch by `add_use`, so it
shares no mutable containers with the source.) -/
theorem filter_by_range_frame :
    ∀ (c : Command) (d s : ℤ) (pr : Command × Command),
      get_uses_from_date c d s = .ok pr →
      pr.1 = c ∧ pr.1.count = c.count ∧ pr.1.uses = c.uses ∧
      pr.1.calendar_usage = c.calendar_usage ∧ pr.1.weekly_usage = c.weekly_usage ∧
      pr.1.hourly_usage = c.hourly_usage ∧ pr.1.flags = c.flags := by
  intro c d s pr h
  obtain ⟨nc, -, rfl⟩ := get_uses_from_date_eq_ok h
  exact ⟨rfl, rfl, rfl, rfl, rfl, rfl, rfl⟩

/-- A source record with two uses, two days apart. -/
def c5src : Command :=
  { name := "g", count := 2, uses := [(0, []), (172800, [])],
    most_recent_use := some 172800, calendar_usage := {0, 2},
    weekly_usage := {3, 5}, hourly_usage := {0, 0}, flags := 0 }

/-- `c5src` filtered to the range `[0, 86400]`: one use left, but
`most_recent_use` still the source's. -/
def c5res : Command :=
  { name := "g", count := 1, uses := [(0, [])],
    most_recent_use := some 172800, calendar_usage := {0},
    weekly_usage := {3}, hourly_usage := {0}, flags := 0 }

theorem filter_by_range_frame_witness :
    (c5src, c5res).1 = c5src :=
  (filter_by_range_frame c5src 0 86400 (c5src, c5res) (by decide)).1

/-- C5 (counterexample): on the record `c5src` (uses at times 0 and
172800), filtering to `[0, 86400]` yields a record whose own uses are
exactly `[(0, [])]` yet whose `most_recent_use` is 172800 — the source's
maximum, which is not a timestamp of the result's own uses, so
`most_recent_use` is not the maximum of the record's own `uses`. -/
theorem most_recent_use_not_max_in_derived :
    get_uses_from_date c5src 0 86400 = .ok (c5src, c5res) ∧
    c5res.uses.map Prod.fst = [0] ∧
    c5res.most_recent_use = some 172800 ∧
    ¬((172800 : ℤ) ∈ c5res.uses.map Prod.fst) := by decide

/-- C5 (amended): for a record built purely by `add_use` calls,
`most_recent_use` is absent exactly when `uses` is empty and otherwise is
the maximum timestamp of its own uses; the records returned by
`get_uses_from_date` and `get_last_n_uses`, however, carry over the
*source's* `most_recent_use` unchanged (which need not be the maximum of
their own uses). -/
theorem most_recent_use_semantics :
    (∀ (name : String) (l : List (ℤ × List String)) (c : Command),
        add_uses (mkCommand name) l = .ok c →
        (c.most_recent_use = none → c.uses = []) ∧
        (c.uses ≠ [] → ∃ m, c.most_recent_use = some m ∧
          m ∈ c.uses.map Prod.fst ∧ ∀ x ∈ c.uses.map Prod.fst, x ≤ m)) ∧
    (∀ (c : Command) (d s : ℤ) (pr : Command × Command),
        get_uses_from_date c d s = .ok pr → pr.2.most_recent_use = c.most_recent_use) ∧
    (∀ (c : Command) (n : ℕ) (pr : Command × Command),
        get_last_n_uses c n = .ok pr → pr.2.most_recent_use = c.most_recent_use) := by
  refine ⟨?_, ?_, ?_⟩
  · intro name l c h
    have hinv : mru_inv c :=
      add_uses_preserve (fun _ _ _ _ => add_use_mru_inv) l _ c h
        ⟨fun _ => rfl, fun m hm => Option.noConfusion hm⟩
    refine ⟨hinv.1, ?_⟩
    intro hne
    cases hm : c.most_recent_use with
    | none => exact absurd (hinv.1 hm) hne
    | some m => exact ⟨m, rfl, (hinv.2 m hm).1, (hinv.2 m hm).2⟩
  · intro c d s pr h
    obtain ⟨nc, -, rfl⟩ := get_uses_from_date_eq_ok h
    rfl
  · intro c n pr h
    obtain ⟨nc, -, rfl⟩ := get_last_n_uses_eq_ok h
    rfl

theorem most_recent_use_semantics_witness :
    c5res.most_recent_use = c5src.most_recent_use :=
  most_recent_use_semantics.2.1 c5src 0 86400 (c5src, c5res) (by decide)

lemma sort_insert_perm (x : ℤ × List String) :
    ∀ l : List (ℤ × List String), (sort_insert x l).Perm (x :: l) := by
  intro l
  induction l with
  | nil => exact List.Perm.refl _
  | cons y ys ih =>
    rw [sort_insert]
    by_cases h : y.1 < x.1
    · rw [if_pos h]
      exact (ih.cons y).trans (List.Perm.swap x y ys)
    · rw [if_neg h]

lemma sort_uses_perm : ∀ l : List (ℤ × List String), (sort_uses l).Perm l := by
  intro l
  induction l with
  | nil => exact List.Perm.refl _
  | cons x xs ih =>
    rw [sort_uses]
    exact (sort_insert_perm x (sort_uses xs)).trans (ih.cons x)

lemma sort_uses_length (l : List (ℤ × List String)) :
    (sort_uses l).length = l.length :=
  (sort_uses_perm l).length_eq

lemma neg_slice_subset {α : Type} (l : List α) (n : ℕ) : neg_slice l n ⊆ l := by
  unfold neg_slice
  by_cases h : n = 0
  · rw [if_pos h]; exact fun _ hx => hx
  · rw [if_neg h]; exact List.drop_subset _ l

lemma neg_slice_length {α : Type} (l : List α) (n : ℕ) :
    (neg_slice l n).length = if n = 0 then l.length else min n l.length := by
  unfold neg_slice
  by_cases h : n = 0
  · rw [if_pos h, if_pos h]
  · rw [if_neg h, if_neg h, List.length_drop]
    omega

/-- A successful `add_use` sequence when every argument token of every use
is non-empty, with its effect on `count` and `uses`. -/
lemma add_uses_ok_of_nonempty_tokens :
    ∀ (l : List (ℤ × List String)) (c0 : Command),
      (∀ u ∈ l, ∀ a ∈ u.2, a ≠ "") →
      ∃ c', add_uses c0 l = .ok c' ∧ c'.count = c0.count + l.length ∧
        c'.uses = c0.uses ++ l := by
  intro l
  induction l with
  | nil => intro c0 _; exact ⟨c0, rfl, by simp, by simp⟩
  | cons u rest ih =>
    intro c0 h
    obtain ⟨f, hf⟩ := get_flags_ok_of_nonempty u.2 (h u (List.mem_cons_self u rest))
    have hadd : add_use c0 u.1 u.2 = .ok
        { c0 with
          count := c0.count + 1
          uses := c0.uses ++ [(u.1, u.2)]
          calendar_usage := date_of u.1 ::ₘ c0.calendar_usage
          weekly_usage := py_weekday u.1 ::ₘ c0.weekly_usage
          hourly_usage := hour_of u.1 ::ₘ c0.hourly_usage
          flags := c0.flags + f
          most_recent_use :=
            match c0.most_recent_use with
            | none => some u.1
            | some m => if m < u.1 then some u.1 else some m } := by
      rw [add_use, hf]
    obtain ⟨c', hc', hcount, huses⟩ := ih _ (fun x hx a ha => h x (List.mem_cons_of_mem u hx) a ha)
    refine ⟨c', ?_, ?_, ?_⟩
    · rw [add_uses, hadd]; exact hc'
    · rw [hcount]; simp only [List.length_cons]; omega
    · rw [huses]; simp

/-- C7 (counterexample): `last_n_uses(0)` does not return `min(0, count)`
uses — Python's slice `uses[-0:]` is `uses[0:]`, the whole list, so on a
one-use record the result has count 1, not 0. -/
def c7src : Command :=
  { name := "g", count := 1, uses := [(0, [])], most_recent_use := some 0,
    calendar_usage := {0}, weekly_usage := {3}, hourly_usage := {0}, flags := 0 }

theorem last_n_uses_zero_takes_all :
    get_last_n_uses c7src 0 = .ok (c7src, c7src) ∧
    c7src.count = 1 ∧ min 0 c7src.count = 0 ∧ c7src.count ≠ min 0 c7src.count := by decide

/-- C7 (amended): `last_n_uses(n)` sorts the source's uses ascending by
timestamp (in place) and rebuilds a new record from the slice
`uses[-n:]` of the sorted sequence; for `n ≥ 1` that slice is the final
`min(n, count)` entries, so the result's count is `min(n, count)` (in
particular the full count when `count ≤ n`), while for `n = 0` the slice
is the whole list and the result has the source's full count. -/
theorem last_n_uses_count :
    ∀ (c : Command) (n : ℕ),
      (∀ u ∈ c.uses, ∀ a ∈ u.2, a ≠ "") →
      c.count = c.uses.length →
      ∃ pr : Command × Command, get_last_n_uses c n = .ok pr ∧
        pr.1.uses = sort_uses c.uses ∧
        pr.2.uses = neg_slice (sort_uses c.uses) n ∧
        pr.2.count = (if n = 0 then c.count else min n c.count) := by
  intro c n hflags hlen
  have hmem : ∀ u ∈ neg_slice (sort_uses c.uses) n, ∀ a ∈ u.2, a ≠ "" := by
    intro u hu a ha
    exact hflags u ((sort_uses_perm c.uses).subset (neg_slice_subset _ _ hu)) a ha
  obtain ⟨nc, hnc, hcount, huses⟩ :=
    add_uses_ok_of_nonempty_tokens (neg_slice (sort_uses c.uses) n) (mkCommand c.name) hmem
  refine ⟨({ c with uses := sort_uses c.uses },
           { nc with most_recent_use := c.most_recent_use }), ?_, rfl, ?_, ?_⟩
  · simp only [get_last_n_uses]
    rw [hnc]
  · show nc.uses = _
    rw [huses]
    rfl
  · show nc.count = _
    rw [hcount, neg_slice_length, sort_uses_length]
    by_cases h : n = 0
    · rw [if_pos h, if_pos h, hlen]
      simp [mkCommand]
    · rw [if_neg h, if_neg h, hlen]
      simp [mkCommand]

theorem last_n_uses_count_witness :
    get_last_n_uses c7src 2 = .ok (c7src, c7src) ∧ c7src.count = min 2 c7src.count := by
  refine ⟨by decide, ?_⟩
  obtain ⟨pr, h1, -, -, h4⟩ := last_n_uses_count c7src 2 (by decide) (by decide)
  have hpr : (c7src, c7src) = pr :=
    Except.ok.inj ((by decide : get_last_n_uses c7src 2 = .ok (c7src, c7src)).symm.trans h1)
  rw [← hpr] at h4
  simpa using h4

/-! ## Empty bucket mappings in the reporters (C8) -/

lemma range_loop_no_match {d s : ℤ} :
    ∀ (l : List (ℤ × List String)) (acc : Command),
      (∀ u ∈ l, ¬(d ≤ u.1 ∧ u.1 ≤ s)) → range_loop d s acc l = .ok acc := by
  intro l
  induction l with
  | nil => intro acc _; rfl
  | cons u rest ih =>
    intro acc h
    rw [range_loop, if_neg (h u (List.mem_cons_self u rest))]
    exact ih acc (fun x hx => h x (List.mem_cons_of_mem u hx))

lemma analyze_keep_empty :
    ∀ (cmds : List (String × Command)) (s e : ℤ),
      (∀ p ∈ cmds, ∀ u ∈ p.2.uses, ¬(s ≤ u.1 ∧ u.1 ≤ e)) →
      analyze_keep cmds s e = .ok [] := by
  intro cmds
  induction cmds with
  | nil => intro s e _; rfl
  | cons p rest ih =>
    intro s e h
    obtain ⟨k, cmd⟩ := p
    have hr : range_loop s e (mkCommand cmd.name) cmd.uses = .ok (mkCommand cmd.name) :=
      range_loop_no_match cmd.uses _ (h (k, cmd) (List.mem_cons_self _ _))
    have hg : get_uses_from_date cmd s e =
        .ok (cmd, { mkCommand cmd.name with most_recent_use := cmd.most_recent_use }) := by
      rw [get_uses_from_date, hr]
    rw [analyze_keep, hg, ih s e (fun x hx => h x (List.mem_cons_of_mem _ hx))]
    simp [mkCommand]

/-- C8 (amended): a reporting function that receives an empty bucket
mapping raises an IndexError at the peak computation
(`most_common(1)[0]`) before any division, and `analyze_commands` does
not catch it: when no use of any record falls inside the reporting
window, the whole `analyze_commands` call errors instead of skipping the
empty reports. -/
theorem empty_report_raises :
    ∀ (cmds : List (String × Command)) (s e : ℤ) (w : ℕ),
      (∀ p ∈ cmds, ∀ u ∈ p.2.uses, ¬(s ≤ u.1 ∧ u.1 ≤ e)) →
      analyze_commands cmds s e w = .error () ∧
      print_calendar 0 s e = .error () ∧
      print_week_usage 0 w = .error () ∧
      print_time_usage 0 w = .error () := by
  intro cmds s e w h
  have hk := analyze_keep_empty cmds s e h
  have hcal : print_calendar (0 : Multiset ℤ) s e = .error () := by
    simp [print_calendar, counter_peak]
  refine ⟨?_, hcal, ?_, ?_⟩
  · simp only [analyze_commands, hk, List.map_nil, List.sum_nil, hcal]
  · simp [print_week_usage, counter_peak]
  · simp [print_time_usage, counter_peak]

/-- C8 (counterexample): with no records at all — hence empty aggregate
bucket mappings — the `analyze_commands` pipeline of the main reporting
window errors out (an uncaught IndexError) instead of skipping the
reports. -/
theorem analyze_empty_mapping_crashes :
    analyze_commands [] (mk_datetime 2024 7 15) (mk_datetime 2024 7 16) 80 = .error () := rfl

theorem empty_report_raises_witness :
    analyze_commands [("g", c7src)] 86400 172800 80 = .error () :=
  (empty_report_raises [("g", c7src)] 86400 172800 80 (by decide)).1

/-! ## The bar-chart arithmetic (C9) -/

lemma mapM_loop_ok {α β : Type} (f : α → Except Unit β) (g : α → β)
    (h : ∀ a, f a = .ok (g a)) :
    ∀ (l : List α) (acc : List β),
      List.mapM.loop f l acc = .ok (acc.reverse ++ l.map g) := by
  intro l
  induction l with
  | nil =>
    intro acc
    simp only [List.mapM.loop, List.map_nil, List.append_nil]
    rfl
  | cons a rest ih =>
    intro acc
    rw [List.mapM.loop, h a]
    show List.mapM.loop f rest (g a :: acc) = _
    rw [ih]
    simp

lemma mapM_ok_of_forall {α β : Type} (f : α → Except Unit β) (g : α → β)
    (h : ∀ a, f a = .ok (g a)) : ∀ l : List α, l.mapM f = .ok (l.map g) := by
  intro l
  rw [show l.mapM f = List.mapM.loop f l [] from rfl, mapM_loop_ok f g h l []]
  simp

/-- With a non-negative `cols` every row of the bar-chart loop succeeds. -/
lemma rows_mapM_ok {α : Type} (k : ℕ) (lab : ℕ → α) (cols : ℤ) (cnt : ℕ → ℕ) (p : ℕ)
    (hc : ¬cols < 0) :
    (List.range k).mapM (fun i =>
        if cols < 0 then (Except.error () : Except Unit (α × ℕ × ℕ))
        else .ok (lab i, bar_len cols (cnt i) p, cnt i)) =
      .ok ((List.range k).map (fun i => (lab i, bar_len cols (cnt i) p, cnt i))) :=
  mapM_ok_of_forall _ _ (fun a => by rw [if_neg hc]) _

/-- With a negative `cols` the first row's f-string raises, erroring the
whole bar-chart loop. -/
lemma rows_mapM_neg {α : Type} (k : ℕ) (hk : 0 < k) (lab : ℕ → α) (cols : ℤ)
    (cnt : ℕ → ℕ) (p : ℕ) (hc : cols < 0) :
    (List.range k).mapM (fun i =>
        if cols < 0 then (Except.error () : Except Unit (α × ℕ × ℕ))
        else .ok (lab i, bar_len cols (cnt i) p, cnt i)) = .error () := by
  obtain ⟨k', rfl⟩ : ∃ k', k = k' + 1 := ⟨k - 1, by omega⟩
  rw [List.range_succ_eq_map, List.mapM_cons, if_pos hc]
  rfl

set_option maxRecDepth 1000000 in
/-- C9 (amended): whenever a bar-chart printer succeeds, the bar field
width `bar_cols w` — the binary64 evaluation of `round((w * 0.7) - 3)`,
with no clamping — is non-negative (a negative field width instead makes
the row's f-string raise), and every printed bar's length in character
cells is `bar_len (bar_cols w) count peak`, the binary64 evaluation of
`floor(cols * (count / peak))`; this holds for both the weekly and the
hourly chart.  The float arithmetic deviates from the exact real-number
formulas: at width 175 the field width is 119 where exact rounding of
`175 * 0.7 - 3 = 119.5` gives 120, and at field width 46 (terminal width
70) a count of 13 with peak 23 prints a 25-cell bar where the exact
`floor(46 * 13 / 23)` is 26. -/
theorem bar_length_formula :
    (∀ (m : Multiset ℕ) (w : ℕ) (rows : List (Char × ℕ × ℕ)) (p : ℕ),
      print_week_usage m w = .ok rows → counter_peak m = .ok p →
      0 ≤ bar_cols w ∧ rows.length = 7 ∧
      ∀ day : ℕ, day < 7 →
        (rows.get? day).map (fun row => row.2.1) =
          some (bar_len (bar_cols w) (m.count day) p)) ∧
    (∀ (m : Multiset ℕ) (w : ℕ) (rows : List (String × ℕ × ℕ)) (p : ℕ),
      print_time_usage m w = .ok rows → counter_peak m = .ok p →
      0 ≤ bar_cols w ∧ rows.length = 24 ∧
      ∀ hour : ℕ, hour < 24 →
        (rows.get? hour).map (fun row => row.2.1) =
          some (bar_len (bar_cols w) (m.count hour) p)) ∧
    (bar_cols 175 = 119 ∧ py_round_tenths (7 * 175 - 30) = 120) ∧
    (bar_len 46 13 23 = 25 ∧ (46 * 13 : ℤ) / 23 = 26) := by
  refine ⟨?_, ?_, by decide, by decide⟩
  · intro m w rows p h hp
    rw [print_week_usage, hp] at h
    dsimp only at h
    by_cases hc : bar_cols w < 0
    · rw [rows_mapM_neg 7 (by omega) _ _ _ _ hc] at h
      cases h
    · rw [rows_mapM_ok 7 _ _ _ _ hc] at h
      obtain rfl := (Except.ok.inj h).symm
      refine ⟨by omega, by simp, ?_⟩
      intro day hday
      rw [List.get?_map, List.get?_range hday]
      rfl
  · intro m w rows p h hp
    rw [print_time_usage, hp] at h
    dsimp only at h
    by_cases hc : bar_cols w < 0
    · rw [rows_mapM_neg 24 (by omega) _ _ _ _ hc] at h
      cases h
    · rw [rows_mapM_ok 24 _ _ _ _ hc] at h
      obtain rfl := (Except.ok.inj h).symm
      refine ⟨by omega, by simp, ?_⟩
      intro hour hhour
      rw [List.get?_map, List.get?_range hhour]
      rfl

set_option maxRecDepth 1000000 in
/-- C9 (counterexample): the computed bar field width is the binary64
evaluation of `round((w * 0.7) - 3)` with no clamping — at terminal
width 3 it is −1 (`3 * 0.7 - 3 = -0.9000000000000004` as a double, and
negative, so the claim's "never negative" fails), and it differs from the
claim's clamped formula `max(round(w * 0.7) - 3, 0)` at widths 3 and 5. -/
theorem bar_width_negative_at_3 :
    bar_cols 3 = -1 ∧ bar_cols 3 < 0 ∧ bar_cols 3 ≠ spec_available_width 3 ∧
    bar_cols 5 ≠ spec_available_width 5 := by decide

set_option maxRecDepth 1000000 in
theorem bar_length_formula_witness :
    (0 : ℤ) ≤ bar_cols 80 :=
  (bar_length_formula.1 {0} 80
    [('S', 53, 1), ('M', 0, 0), ('T', 0, 0), ('W', 0, 0), ('T', 0, 0), ('F', 0, 0), ('S', 0, 0)]
    1 (by decide) (by decide)).1

/-! ## The calendar grid (C3) -/

/-- The true (Gregorian) number of days of year `y`, as the day distance
from Jan 1 to Dec 31 plus one. -/
def realdays (y : ℕ) : ℤ := days_from_civil y 12 31 - days_from_civil y 1 1 + 1

lemma days_from_civil_add_400 (y m d : ℕ) (hy : 1 ≤ y) :
    days_from_civil (y + 400) m d = days_from_civil y m d + 146097 := by
  unfold days_from_civil
  by_cases hm : m ≤ 2
  · simp only [if_pos hm]
    have h1 : y + 400 - 1 = (y - 1) + 400 := by omega
    rw [h1, Nat.add_div_right _ (by norm_num), Nat.add_mod_right]
    push_cast
    ring
  · simp only [if_neg hm]
    rw [Nat.add_div_right _ (by norm_num), Nat.add_mod_right]
    push_cast
    ring

lemma realdays_add_400 (y : ℕ) (hy : 1 ≤ y) : realdays (y + 400) = realdays y := by
  unfold realdays
  rw [days_from_civil_add_400 _ _ _ hy, days_from_civil_add_400 _ _ _ hy]
  ring

lemma year_days_add_400 (y : ℕ) : year_days (y + 400) = year_days y := by
  unfold year_days
  have h : (y + 400) % 4 = y % 4 := by omega
  rw [h]

set_option maxRecDepth 100000 in
lemma realdays_le_small : ∀ y < 401, 1 ≤ y → realdays y ≤ (year_days y : ℤ) := by decide

/-- The simplified `year % 4` rule never undercounts: the code's year
length is at least the true Gregorian year length, for every year. -/
lemma realdays_le : ∀ y : ℕ, 1 ≤ y → realdays y ≤ (year_days y : ℤ) := by
  intro y
  induction y using Nat.strong_induction_on with
  | _ y ih =>
    intro hy
    by_cases h : y < 401
    · exact realdays_le_small y h hy
    · have h1 : y = (y - 400) + 400 := by omega
      rw [h1, realdays_add_400 _ (by omega), year_days_add_400]
      exact ih (y - 400) (by omega) (by omega)

lemma nat_ceil_div7 (a : ℕ) : ⌈(a : ℚ) / 7⌉ = ((a + 6) / 7 : ℕ) := by
  have h2 : -((a : ℚ) / 7) = (((-(a : ℤ)) : ℤ) : ℚ) / ((7 : ℕ) : ℚ) := by
    push_cast
    ring
  have h3 : ⌊-((a : ℚ) / 7)⌋ = -(a : ℤ) / ((7 : ℕ) : ℤ) := by
    rw [h2, Rat.floor_intCast_div_natCast]
  have h4 : ⌈(a : ℚ) / 7⌉ = -⌊-((a : ℚ) / 7)⌋ := by
    rw [Int.floor_neg]
    ring
  rw [h4, h3]
  omega

set_option maxRecDepth 10000 in
/-- C3: for every year, the calendar renderer's number of week columns is
`ceil((days + offset) / 7)`, and every date of the year — every day number
from Jan 1 to Dec 31 inclusive — is the date of exactly one grid cell
`(weekday row, week column)` with row < 7 and column < columns: no date in
two cells and no date without a cell. -/
theorem calendar_grid_partition :
    ∀ year : ℕ, 1 ≤ year →
      ((calendar_columns year : ℤ) =
        ⌈((year_days year + year_offset year : ℕ) : ℚ) / 7⌉) ∧
      ∀ r : ℤ, days_from_civil year 1 1 ≤ r → r ≤ days_from_civil year 12 31 →
        ∃! p : ℕ × ℕ, p.1 < 7 ∧ p.2 < calendar_columns year ∧ cell_day year p.1 p.2 = r := by
  intro year hy
  constructor
  · exact_mod_cast (nat_ceil_div7 (year_days year + year_offset year)).symm
  · intro r hrA hrB
    have hBD : days_from_civil year 12 31 - days_from_civil year 1 1 + 1 ≤
        (year_days year : ℤ) := realdays_le year hy
    have h0 : 0 ≤ r - days_from_civil year 1 1 := by omega
    have hn : ((r - days_from_civil year 1 1).toNat : ℤ) = r - days_from_civil year 1 1 :=
      Int.toNat_of_nonneg h0
    set n : ℕ := (r - days_from_civil year 1 1).toNat with hndef
    have hnD : n < year_days year := by omega
    refine ⟨((n + year_offset year) % 7, (n + year_offset year) / 7), ⟨?_, ?_, ?_⟩, ?_⟩
    · exact Nat.mod_lt _ (by norm_num)
    · show (n + year_offset year) / 7 < calendar_columns year
      unfold calendar_columns
      omega
    · show cell_day year ((n + year_offset year) % 7) ((n + year_offset year) / 7) = r
      unfold cell_day
      have hdm : (n + year_offset year) % 7 + 7 * ((n + year_offset year) / 7) =
          n + year_offset year := by omega
      omega
    · rintro ⟨d, w⟩ ⟨hd, hw, hcell⟩
      unfold cell_day at hcell
      have hdw : d + 7 * w = n + year_offset year := by omega
      obtain rfl : d = (n + year_offset year) % 7 := by omega
      obtain rfl : w = (n + year_offset year) / 7 := by omega
      rfl

theorem calendar_grid_partition_witness :
    (calendar_columns 2024 : ℤ) =
      ⌈((year_days 2024 + year_offset 2024 : ℕ) : ℚ) / 7⌉ :=
  (calendar_grid_partition 2024 (by decide)).1
